import Mathlib

/-!
# Tennis Abstract scraper: a shallow embedding of `scrape-tennisabstract.js`

JavaScript strings are modelled as lists of characters (`Str`).  The values the
program handles come from a UTF-8 decoded file and from DOM text, so they are
sequences of Unicode scalar values.  The DOM is modelled as a tree of text and
element nodes; `querySelectorAll` is modelled for the descendant selectors the
script uses.  The browser (navigation, waiting, timing) is the environment: its
per-player outcome is an input of the orchestrator loop.
-/

namespace TennisAbstract

/-! ## Strings -/

/-- A JavaScript string, as the list of its characters. -/
abbrev Str := List Char

/-- The characters `String.prototype.trim` strips: ECMAScript `WhiteSpace` and
`LineTerminator` code points. -/
def isTrimChar (c : Char) : Bool :=
  let n := c.toNat
  n = 0x09 || n = 0x0A || n = 0x0B || n = 0x0C || n = 0x0D || n = 0x20 ||
  n = 0xA0 || n = 0x1680 || (0x2000 ≤ n && n ≤ 0x200A) || n = 0x2028 ||
  n = 0x2029 || n = 0x202F || n = 0x205F || n = 0x3000 || n = 0xFEFF

/-- `String.prototype.trimStart`. -/
def trimStart (s : Str) : Str := s.dropWhile isTrimChar

/-- `String.prototype.trimEnd`. -/
def trimEnd (s : Str) : Str := (s.reverse.dropWhile isTrimChar).reverse

/-- `String.prototype.trim`. -/
def trim (s : Str) : Str := trimEnd (trimStart s)

/-- `Array.prototype.join` on an array of strings. -/
def join (sep : Str) : List Str → Str
  | [] => []
  | [x] => x
  | x :: y :: rest => x ++ sep ++ join sep (y :: rest)

/-- `Array.prototype.includes` on an array of strings. -/
def includes (xs : List Str) (x : Str) : Bool :=
  match xs with
  | [] => false
  | y :: ys => if y = x then true else includes ys x

/-- `Array.prototype.indexOf` scanning from position `i`. -/
def indexOfFrom (x : Str) : List Str → Nat → Int
  | [], _ => -1
  | y :: ys, i => if y = x then (i : Int) else indexOfFrom x ys (i + 1)

/-- `Array.prototype.indexOf` on an array of strings: first position or `-1`. -/
def indexOf (xs : List Str) (x : Str) : Int := indexOfFrom x xs 0

/-! ## `escapeCSV` (lines 12-19) -/

/-- The test `/[",\n]/.test(s)`. -/
def needsQuoting (s : Str) : Bool :=
  s.any (fun c => c = '"' || c = ',' || c = '\n')

/-- The replacement `s.replace(/"/g, '""')`. -/
def doubleQuotes : Str → Str
  | [] => []
  | c :: cs => if c = '"' then '"' :: '"' :: doubleQuotes cs else c :: doubleQuotes cs

/-- `escapeCSV(value)`; `none` stands for `undefined`/`null`. -/
def escapeCSV : Option Str → Str
  | none => []
  | some s => if needsQuoting s then ['"'] ++ doubleQuotes s ++ ['"'] else s

/-! ## `readPlayers` (lines 21-32) -/

/-- The loop body of `readPlayers` over the lines delivered by `readline`,
pushing onto `players`. -/
def readPlayersLoop (players : List Str) : List Str → List Str
  | [] => players
  | line :: rest =>
    let name := trim line
    if name ≠ [] then readPlayersLoop (players ++ [name]) rest
    else readPlayersLoop players rest

/-- `readPlayers`, as a function of the sequence of lines of the file. -/
def readPlayers (lines : List Str) : List Str := readPlayersLoop [] lines

/-! ## URL construction in `scrapePlayer` (lines 34-39) -/

/-- `s.replace(pat, rep)` with a one-character string pattern: only the first
occurrence is replaced. -/
def replaceFirst (pat : Char) (rep : Str) : Str → Str
  | [] => []
  | c :: cs => if c = pat then rep ++ cs else c :: replaceFirst pat rep cs

/-- The UTF-8 bytes of a code point. -/
def utf8Bytes (n : Nat) : List Nat :=
  if n < 0x80 then [n]
  else if n < 0x800 then [0xC0 + n / 64, 0x80 + n % 64]
  else if n < 0x10000 then [0xE0 + n / 4096, 0x80 + n / 64 % 64, 0x80 + n % 64]
  else [0xF0 + n / 262144, 0x80 + n / 4096 % 64, 0x80 + n / 64 % 64, 0x80 + n % 64]

/-- An upper-case hexadecimal digit. -/
def hexDigit (d : Nat) : Char :=
  if d < 10 then Char.ofNat (48 + d) else Char.ofNat (55 + d)

/-- The escape `%XX` of one byte. -/
def percentByte (b : Nat) : Str := ['%', hexDigit (b / 16), hexDigit (b % 16)]

/-- The characters `encodeURIComponent` leaves as they are:
`A-Z a-z 0-9 - _ . ! ~ * ' ( )`. -/
def isUnreserved (c : Char) : Bool :=
  let n := c.toNat
  (65 ≤ n && n ≤ 90) || (97 ≤ n && n ≤ 122) || (48 ≤ n && n ≤ 57) ||
  n = 45 || n = 95 || n = 46 || n = 33 || n = 126 || n = 42 || n = 39 ||
  n = 40 || n = 41

/-- `encodeURIComponent` on a string of Unicode scalar values. -/
def encodeURIComponent : Str → Str
  | [] => []
  | c :: cs =>
    (if isUnreserved c then [c] else (utf8Bytes c.toNat).flatMap percentByte)
      ++ encodeURIComponent cs

/-- The fixed prefix of the profile-page URL. -/
def baseUrl : Str := "https://www.tennisabstract.com/cgi-bin/player.cgi?p=".toList

/-- The `url` constant of `scrapePlayer`. -/
def playerUrl (playerName : Str) : Str :=
  baseUrl ++ encodeURIComponent (replaceFirst ' ' [] playerName)

/-! ## The DOM -/

/-- A DOM node: a text node or an element with its child nodes.  Tag names are
the lower-case local names of an HTML document. -/
inductive Node where
  | text (data : Str) : Node
  | elem (tag : String) (kids : List Node) : Node

/-- An element of a document: its tag, its child nodes, and the tags of its
ancestors, nearest first. -/
structure Elem where
  anc : List String
  tag : String
  kids : List Node

mutual
/-- The `textContent` of a node. -/
def textContent : Node → Str
  | .text d => d
  | .elem _ kids => textContentList kids
/-- The concatenated `textContent` of a list of sibling nodes. -/
def textContentList : List Node → Str
  | [] => []
  | k :: ks => textContent k ++ textContentList ks
end

mutual
/-- The elements of the subtree of a node (the node itself included), in
document order, each with its ancestor tags. -/
def descendants (anc : List String) : Node → List Elem
  | .text _ => []
  | .elem tag kids => ⟨anc, tag, kids⟩ :: descendantsList (tag :: anc) kids
/-- The elements of the subtrees of a list of sibling nodes, in document order. -/
def descendantsList (anc : List String) : List Node → List Elem
  | [] => []
  | k :: ks => descendants anc k ++ descendantsList anc ks
end

/-- The `textContent` of an element. -/
def Elem.textContent (e : Elem) : Str := textContentList e.kids

/-- Whether the tags `sel` (innermost first) occur in that order among the
ancestor tags `anc` (nearest first): the descendant combinator. -/
def ancestorsMatch : List String → List String → Bool
  | [], _ => true
  | _ :: _, [] => false
  | s :: ss, a :: as =>
    if s = a then ancestorsMatch ss as else ancestorsMatch (s :: ss) as

/-- Whether an element matches a complex selector made of tag names joined by
descendant combinators, such as `thead tr th` given as `["thead", "tr", "th"]`. -/
def matchesSelector (e : Elem) (sel : List String) : Bool :=
  match sel.reverse with
  | [] => false
  | c :: outer => e.tag = c && ancestorsMatch outer e.anc

/-- `element.querySelectorAll(selectors)` for a comma-separated selector list:
the proper descendants of the element that match one of the selectors, in
document order. -/
def querySelectorAll (e : Elem) (sels : List (List String)) : List Elem :=
  (descendantsList (e.tag :: e.anc) e.kids).filter
    (fun d => sels.any (matchesSelector d))

/-- `element.querySelector(selectors)`: the first match, if any. -/
def querySelector (e : Elem) (sels : List (List String)) : Option Elem :=
  (querySelectorAll e sels).head?

/-- `document.querySelectorAll(selectors)` on the document with root element
`root`. -/
def documentQuerySelectorAll (root : Node) (sels : List (List String)) : List Elem :=
  (descendants [] root).filter (fun d => sels.any (matchesSelector d))

/-! ## Waiting for the table and extracting its rows (lines 52-133) -/

/-- The label `Date`. -/
def lblDate : Str := "Date".toList
/-- The label `Score`. -/
def lblScore : Str := "Score".toList

/-- The predicate passed to `page.waitForFunction`, on the list
`document.querySelectorAll("table")`. -/
def waitPredicate (tables : List Elem) : Bool :=
  tables.any (fun t =>
    let headers := (querySelectorAll t [["thead", "tr", "th"], ["tr", "th"]]).map
      (fun th => trim th.textContent)
    includes headers lblDate && includes headers lblScore)

/-- `getHeaders(table)`. -/
def getHeaders (table : Elem) : List Str :=
  let ths := querySelectorAll table [["thead", "tr", "th"]]
  let headerRow := if ths.length ≠ 0 then ths else querySelectorAll table [["tr", "th"]]
  headerRow.map (fun th => trim th.textContent)

/-- The loop `for (const t of tables) ... break` that sets `target`. -/
def findTarget : List Elem → Option Elem
  | [] => none
  | t :: ts =>
    let headers := getHeaders t
    if includes headers lblDate && includes headers lblScore then some t
    else findTarget ts

/-- The derived column index `oppIdx`. -/
def oppIdx (vRkIdx scoreIdx : Int) : Int :=
  if vRkIdx ≠ -1 ∧ scoreIdx ≠ -1 then min vRkIdx scoreIdx + 1 else -1

/-- The closure `get` of the row mapping: the trimmed text of cell `i`, or the
empty string. -/
def getCell (tds : List Elem) (i : Int) : Str :=
  if 0 ≤ i ∧ i < (tds.length : Int) then
    match tds[i.toNat]? with
    | some td => trim td.textContent
    | none => []
  else []

/-- The variable `opponent` of the row mapping. -/
def opponent (tds : List Elem) (oppIdx : Int) : Str :=
  if 0 ≤ oppIdx ∧ oppIdx < (tds.length : Int) then
    match tds[oppIdx.toNat]? with
    | some td =>
      match querySelector td [["a"]] with
      | some link => trim link.textContent
      | none => trim td.textContent
    | none => []
  else []

/-- The object returned by the row mapping; `APct` and `DFPct` are the keys
`A%` and `DF%`. -/
structure ExtractedRow where
  Date : Str
  Tournament : Str
  Rk : Str
  vRk : Str
  DR : Str
  APct : Str
  DFPct : Str
  BPSvd : Str
  Opponent : Str
deriving DecidableEq

/-- The body of `bodyRows.map((tr) => ...)`, for the header list of the target. -/
def rowRecord (headers : List Str) (tr : Elem) : ExtractedRow :=
  let idx := fun (name : String) => indexOf headers name.toList
  let dateIdx := idx "Date"
  let rkIdx := idx "Rk"
  let drIdx := idx "DR"
  let aPctIdx := idx "A%"
  let dfPctIdx := idx "DF%"
  let bpsvdIdx := idx "BPSvd"
  let tournamentIdx := idx "Tournament"
  let vRkIdx := idx "vRk"
  let scoreIdx := idx "Score"
  let tds := querySelectorAll tr [["td"]]
  { Date := getCell tds dateIdx
    Tournament := getCell tds tournamentIdx
    Rk := getCell tds rkIdx
    vRk := getCell tds vRkIdx
    DR := getCell tds drIdx
    APct := getCell tds aPctIdx
    DFPct := getCell tds dfPctIdx
    BPSvd := getCell tds bpsvdIdx
    Opponent := opponent tds (oppIdx vRkIdx scoreIdx) }

/-- The constant `bodyRows`: the `tbody tr` rows with at least one `td`. -/
def bodyRows (target : Elem) : List Elem :=
  (querySelectorAll target [["tbody", "tr"]]).filter
    (fun tr => (querySelectorAll tr [["td"]]).length ≠ 0)

/-- The second `page.evaluate` callback, on the list
`document.querySelectorAll("table")`. -/
def extractRows (tables : List Elem) : List ExtractedRow :=
  match findTarget tables with
  | none => []
  | some target =>
    ((bodyRows target).map (rowRecord (getHeaders target))).filter
      (fun r => r.Date ≠ [])

/-- The second `page.evaluate` callback on a document. -/
def evaluateRows (root : Node) : List ExtractedRow :=
  extractRows (documentQuerySelectorAll root [["table"]])

/-- The object `profile`. -/
structure Profile where
  Age : Str
  Plays : Str
deriving DecidableEq

/-- The object `{ ...r, ...profile }`. -/
structure ScrapedRow where
  Date : Str
  Tournament : Str
  Rk : Str
  vRk : Str
  DR : Str
  APct : Str
  DFPct : Str
  BPSvd : Str
  Opponent : Str
  Age : Str
  Plays : Str
deriving DecidableEq

/-- The spread `{ ...r, ...profile }`. -/
def mergeProfile (profile : Profile) (r : ExtractedRow) : ScrapedRow :=
  { Date := r.Date, Tournament := r.Tournament, Rk := r.Rk, vRk := r.vRk,
    DR := r.DR, APct := r.APct, DFPct := r.DFPct, BPSvd := r.BPSvd,
    Opponent := r.Opponent, Age := profile.Age, Plays := profile.Plays }

/-- What the browser delivers for one player: a failure thrown by one of the
awaited calls (`goto`, `evaluate`, `waitForFunction`), or the extracted profile
and the document on which the rows are evaluated. -/
inductive PageRun where
  | failed (message : Str) : PageRun
  | loaded (profile : Profile) (root : Node) : PageRun

/-- `scrapePlayer`, as a function of what the browser delivers. -/
def scrapePlayer : PageRun → Except Str (List ScrapedRow)
  | .failed message => .error message
  | .loaded profile root => .ok ((evaluateRows root).map (mergeProfile profile))

/-! ## The orchestrator loop and the CSV text of `main` (lines 161-198) -/

/-- A JavaScript object with string values: its properties in insertion order. -/
abbrev Obj := List (Str × Str)

/-- Property access `row[h]`; `none` stands for `undefined`. -/
def prop : Obj → Str → Option Str
  | [], _ => none
  | (k, v) :: rest, h => if k = h then some v else prop rest h

/-- The object `{ Player: player, ...r }`. -/
def withPlayer (player : Str) (r : ScrapedRow) : Obj :=
  [("Player".toList, player), ("Date".toList, r.Date),
   ("Tournament".toList, r.Tournament), ("Rk".toList, r.Rk),
   ("vRk".toList, r.vRk), ("DR".toList, r.DR), ("A%".toList, r.APct),
   ("DF%".toList, r.DFPct), ("BPSvd".toList, r.BPSvd),
   ("Opponent".toList, r.Opponent), ("Age".toList, r.Age),
   ("Plays".toList, r.Plays)]

/-- What the loop does that can be observed from outside. -/
inductive Event where
  | started (player : Str) : Event
  | pause (ms : Nat) : Event
  | failed (player : Str) (message : Str) : Event
deriving DecidableEq

/-- The state of the loop: the array `allRows` and the events so far. -/
structure LoopState where
  allRows : List Obj
  trace : List Event

/-- The inner loop `for (const r of rows) allRows.push(...)`. -/
def pushRows (player : Str) : List Obj → List ScrapedRow → List Obj
  | allRows, [] => allRows
  | allRows, r :: rest => pushRows player (allRows ++ [withPlayer player r]) rest

/-- One iteration of `for (const player of players)`, given the outcome of
`await scrapePlayer(page, player)`: the pause is inside the `try` block, after
the rows are pushed. -/
def mainStep (st : LoopState) (player : Str) (outcome : Except Str (List ScrapedRow)) :
    LoopState :=
  match outcome with
  | .ok rows =>
    { allRows := pushRows player st.allRows rows
      trace := st.trace ++ [Event.started player, Event.pause 1200] }
  | .error message =>
    { allRows := st.allRows
      trace := st.trace ++ [Event.started player, Event.failed player message] }

/-- The loop `for (const player of players)` from a given state. -/
def mainLoopFrom : LoopState → List (Str × Except Str (List ScrapedRow)) → LoopState
  | st, [] => st
  | st, (player, outcome) :: rest => mainLoopFrom (mainStep st player outcome) rest

/-- The loop of `main`, started with `allRows = []`. -/
def mainLoop (runs : List (Str × Except Str (List ScrapedRow))) : LoopState :=
  mainLoopFrom ⟨[], []⟩ runs

/-- The constant `headers` of `main`. -/
def headers : List Str :=
  ["Player".toList, "Age".toList, "Plays".toList, "Date".toList,
   "Tournament".toList, "Rk".toList, "vRk".toList, "DR".toList, "A%".toList,
   "DF%".toList, "BPSvd".toList, "Opponent".toList]

/-- The constant `csv` of `main`. -/
def csvText (allRows : List Obj) : Str :=
  join ['\n']
    ([join [','] (headers.map (fun h => escapeCSV (some h)))] ++
      allRows.map (fun row => join [','] (headers.map (fun h => escapeCSV (prop row h)))))

/-! ## The reference CSV reader

The reader against which the CSV text is checked, a standard reader of
comma-separated text.  Fields are separated by commas.  Outside a quoted field a
record ends at a line feed, at a carriage return, or at a carriage return followed
by a line feed.  A field that starts with a double quote runs to its closing
quote, with `""` standing for one quote and with commas, carriage returns and
line feeds read as data (RFC 4180 quoting).  The reader rejects a quote inside an
unquoted field, text after a closing quote, and an unterminated quoted field. -/

/-- Where the reader is: in an unquoted field (at its start when the field is
empty), inside a quoted field, after a quote seen inside a quoted field, or
right after a carriage return that ended a record. -/
inductive CsvMode where
  | plain : CsvMode
  | quoted : CsvMode
  | quoteSeen : CsvMode
  | afterCR : CsvMode
deriving DecidableEq

/-- The reader state: the field being read, the fields of the record being
read, and the records read so far. -/
structure CsvState where
  mode : CsvMode
  field : Str
  record : List Str
  records : List (List Str)

/-- The state after the record being read is closed. -/
def endRecord (st : CsvState) (mode : CsvMode) : CsvState :=
  { mode := mode, field := [], record := [],
    records := st.records ++ [st.record ++ [st.field]] }

/-- One character of input in an unquoted field. -/
def plainStep (st : CsvState) (c : Char) : Option CsvState :=
  if c = '"' then
    if st.field = [] then
      some { mode := .quoted, field := st.field, record := st.record, records := st.records }
    else none
  else if c = ',' then
    some { mode := .plain, field := [], record := st.record ++ [st.field],
           records := st.records }
  else if c = '\n' then some (endRecord st .plain)
  else if c = '\r' then some (endRecord st .afterCR)
  else
    some { mode := .plain, field := st.field ++ [c], record := st.record,
           records := st.records }

/-- One character of input. -/
def csvStep (st : CsvState) (c : Char) : Option CsvState :=
  match st.mode with
  | .plain => plainStep st c
  | .quoted =>
    if c = '"' then some { st with mode := .quoteSeen }
    else some { st with field := st.field ++ [c] }
  | .quoteSeen =>
    if c = '"' then some { st with mode := .quoted, field := st.field ++ ['"'] }
    else if c = ',' then
      some { st with mode := .plain, field := [], record := st.record ++ [st.field] }
    else if c = '\n' then some (endRecord st .plain)
    else if c = '\r' then some (endRecord st .afterCR)
    else none
  | .afterCR =>
    if c = '\n' then some { st with mode := .plain }
    else plainStep st c

/-- The reader run over a text. -/
def csvRun : CsvState → Str → Option CsvState
  | st, [] => some st
  | st, c :: cs =>
    match csvStep st c with
    | some st1 => csvRun st1 cs
    | none => none

/-- The end of the text: the record being read is closed, unless nothing of it
has been read. -/
def csvFinish (st : CsvState) : Option (List (List Str)) :=
  match st.mode with
  | .plain =>
    if st.field = [] ∧ st.record = [] then some st.records
    else some (st.records ++ [st.record ++ [st.field]])
  | .quoted => none
  | .quoteSeen => some (st.records ++ [st.record ++ [st.field]])
  | .afterCR => some st.records

/-- The records of a CSV text, or `none` if the text is malformed. -/
def readCSV (text : Str) : Option (List (List Str)) :=
  match csvRun ⟨.plain, [], [], []⟩ text with
  | some st => csvFinish st
  | none => none

/-- The reader is about to read a carriage return outside a quoted field:
the text splits as `a ++ '\r' :: b` and the reader is not inside a quoted
field after `a`. -/
def hitsBareCR (st : CsvState) (t : Str) : Prop :=
  ∃ a b st1, t = a ++ '\r' :: b ∧ csvRun st a = some st1 ∧ st1.mode ≠ .quoted

/-- The number of carriage returns held in a reader state. -/
def crCount (st : CsvState) : Nat :=
  (st.records.flatten.flatten).count '\r' + (st.record.flatten).count '\r' +
    st.field.count '\r'

/-- The string a value is written as: `undefined` gives the empty string. -/
def fieldValue (v : Option Str) : Str := v.getD []

/-- A value that `escapeCSV` writes so that the reader reads it back: a value
with a carriage return is one that gets quoted. -/
def crSafe (v : Option Str) : Prop :=
  needsQuoting (fieldValue v) = false → '\r' ∉ fieldValue v

/-- The reader state right after a field written by `escapeCSV`. -/
def afterField (v : Option Str) (r : List Str) (rs : List (List Str)) : CsvState :=
  if needsQuoting (fieldValue v) then ⟨.quoteSeen, fieldValue v, r, rs⟩
  else ⟨.plain, fieldValue v, r, rs⟩

/-- The line written for a record. -/
def csvLine (rec : List (Option Str)) : Str := join [','] (rec.map escapeCSV)

/-- The rows one player adds to the result set. -/
def rowsOf (run : Str × Except Str (List ScrapedRow)) : List Obj :=
  match run.2 with
  | .ok rows => rows.map (withPlayer run.1)
  | .error _ => []

/-- The events of one player. -/
def eventsOf (run : Str × Except Str (List ScrapedRow)) : List Event :=
  match run.2 with
  | .ok _ => [Event.started run.1, Event.pause 1200]
  | .error message => [Event.started run.1, Event.failed run.1 message]

/-- Whether a scrape returned rows. -/
def succeeded (run : Str × Except Str (List ScrapedRow)) : Bool :=
  match run.2 with
  | .ok _ => true
  | .error _ => false

/-- A cell `td` holding the given text. -/
def tdText (s : String) : Node := .elem "td" [.text s.toList]

/-- A header cell `th` holding the given text. -/
def thText (s : String) : Node := .elem "th" [.text s.toList]

/-- A body row for examples: the opponent cell holds a link with the text
`A. Player` followed by the text ` (3)`. -/
def exampleRow : Node :=
  .elem "tr" [tdText "2024-01-15", tdText "5",
    .elem "td" [.elem "a" [.text "A. Player".toList], .text " (3)".toList],
    tdText "6-4 6-4"]

/-- A table for examples, with headers `Date`, `vRk`, `Opponent`, `Score`, and
four body rows: a match row, a row whose `Date` cell is blank, a row without
data cells, and a second match row whose opponent is not a link. -/
def exampleMatches : Node :=
  .elem "table" [
    .elem "thead" [.elem "tr" [thText " Date ", thText "vRk", thText "Opponent",
      thText "Score"]],
    .elem "tbody" [
      exampleRow,
      .elem "tr" [tdText " ", tdText "7", tdText "B. Player", tdText "6-0 6-0"],
      .elem "tr" [thText "2023"],
      .elem "tr" [tdText "2023-12-30", tdText "9", tdText " C. Player [2] ", tdText "7-5 7-5"]]]

/-- The element of `exampleRow` inside `exampleMatches`. -/
def exampleRowElem : Elem :=
  ⟨["tbody", "table"], "tr", [tdText "2024-01-15", tdText "5",
    .elem "td" [.elem "a" [.text "A. Player".toList], .text " (3)".toList],
    tdText "6-4 6-4"]⟩

/-- The opponent cell of `exampleRowElem`. -/
def exampleOpponentCell : Elem :=
  ⟨["tr", "tbody", "table"], "td",
    [.elem "a" [.text "A. Player".toList], .text " (3)".toList]⟩

/-- The table element of `exampleMatches`. -/
def exampleMatchesElem : Elem :=
  ⟨[], "table", [
    .elem "thead" [.elem "tr" [thText " Date ", thText "vRk", thText "Opponent",
      thText "Score"]],
    .elem "tbody" [
      exampleRow,
      .elem "tr" [tdText " ", tdText "7", tdText "B. Player", tdText "6-0 6-0"],
      .elem "tr" [thText "2023"],
      .elem "tr" [tdText "2023-12-30", tdText "9", tdText " C. Player [2] ", tdText "7-5 7-5"]]]⟩

/-- The element of `exampleTable`. -/
def exampleTableElem : Elem :=
  ⟨[], "table", [
    .elem "thead" [.elem "tr" [.elem "th" [.text "Date".toList]]],
    .elem "tbody" [.elem "tr" [.elem "th" [.text "Score".toList]]]]⟩

/-- A table for examples: its `thead` header cell reads `Date`, and a header
cell in its body row reads `Score`. -/
def exampleTable : Node :=
  .elem "table" [
    .elem "thead" [.elem "tr" [.elem "th" [.text "Date".toList]]],
    .elem "tbody" [.elem "tr" [.elem "th" [.text "Score".toList]]]]

/-! ## Facts about `trim` -/

theorem trimEnd_eq_rdropWhile (s : Str) : trimEnd s = s.rdropWhile isTrimChar := rfl

theorem trim_head_not_space (s : Str) (c : Char) (h : (trim s).head? = some c) :
    isTrimChar c = false := by
  have hpre : trim s <+: trimStart s := by
    unfold trim; rw [trimEnd_eq_rdropWhile]; exact List.rdropWhile_prefix _ _
  obtain ⟨t, ht⟩ := hpre
  have h2 : (trimStart s).head? = some c := by
    rw [← ht]
    cases hts : trim s with
    | nil => rw [hts] at h; simp at h
    | cons a as => rw [hts] at h; simpa using h
  have h3 := List.head?_dropWhile_not isTrimChar s
  unfold trimStart at h2
  rw [h2] at h3
  simpa using h3

theorem trim_last_not_space (s : Str) (c : Char) (h : (trim s).getLast? = some c) :
    isTrimChar c = false := by
  have hne : (trimStart s).rdropWhile isTrimChar ≠ [] := by
    intro h0
    have : trim s = [] := h0
    rw [this] at h; simp at h
  have h1 := List.rdropWhile_last_not isTrimChar (trimStart s) hne
  have h2 : (trim s).getLast? = some (((trimStart s).rdropWhile isTrimChar).getLast hne) :=
    List.getLast?_eq_getLast _ hne
  rw [h2] at h
  injection h with h
  rw [← h]
  simpa using h1

theorem trim_eq_nil_of_all_space (l : Str) (h : ∀ c ∈ l, isTrimChar c = true) :
    trim l = [] := by
  have h1 : trimStart l = [] := by
    unfold trimStart
    exact List.dropWhile_eq_nil_iff.mpr h
  unfold trim
  rw [h1]
  rfl

/-! ## `readPlayers` -/

theorem readPlayersLoop_eq (lines : List Str) :
    ∀ players, readPlayersLoop players lines =
      players ++ (lines.map trim).filter (fun n => decide (n ≠ [])) := by
  induction lines with
  | nil => intro players; simp [readPlayersLoop]
  | cons l ls ih =>
    intro players
    unfold readPlayersLoop
    by_cases h : trim l = []
    · simp [h, ih]
    · simp [h, ih]

theorem readPlayers_eq (lines : List Str) :
    readPlayers lines = (lines.map trim).filter (fun n => decide (n ≠ [])) := by
  unfold readPlayers
  rw [readPlayersLoop_eq]
  simp

theorem count_trimmed (n : Str) (hn : n ≠ []) (lines : List Str) :
    ((lines.map trim).filter (fun n => decide (n ≠ []))).count n =
      (lines.filter (fun l => decide (trim l = n))).length := by
  induction lines with
  | nil => rfl
  | cons l ls ih =>
    rw [List.map_cons, List.filter_cons, List.filter_cons]
    by_cases h1 : trim l = n
    · have h2 : trim l ≠ [] := by rw [h1]; exact hn
      rw [if_pos (by simpa using h2), if_pos (by simpa using h1), List.count_cons, ih]
      simp [h1]
    · by_cases h2 : trim l = []
      · rw [if_neg (by simpa using h2), if_neg (by simpa using h1), ih]
      · rw [if_pos (by simpa using h2), if_neg (by simpa using h1), List.count_cons, ih]
        simp [h1]

/-- C9: `readPlayers` returns the trimmed forms of the lines that are non-empty
after trimming, in input order; every returned name is non-empty, is the trimmed
form of a line, and neither starts nor ends with a whitespace character; a line
of whitespace only adds nothing; and a non-empty name occurs in the result as
many times as there are lines whose trimmed form it is (no deduplication). -/
theorem readPlayers_spec (lines : List Str) :
    readPlayers lines = (lines.map trim).filter (fun n => decide (n ≠ [])) ∧
    (∀ n ∈ readPlayers lines, n ≠ [] ∧ (∃ l ∈ lines, n = trim l) ∧
      (∀ c, n.head? = some c → isTrimChar c = false) ∧
      (∀ c, n.getLast? = some c → isTrimChar c = false)) ∧
    (∀ pre l post, lines = pre ++ l :: post → (∀ c ∈ l, isTrimChar c = true) →
      readPlayers lines = readPlayers (pre ++ post)) ∧
    (∀ n, n ≠ [] →
      (readPlayers lines).count n = (lines.filter (fun l => decide (trim l = n))).length) := by
  refine ⟨readPlayers_eq lines, ?_, ?_, ?_⟩
  · intro n hn
    rw [readPlayers_eq] at hn
    simp only [List.mem_filter, List.mem_map, decide_eq_true_eq] at hn
    obtain ⟨⟨l, hl, rfl⟩, hne⟩ := hn
    exact ⟨hne, ⟨l, hl, rfl⟩, trim_head_not_space l, trim_last_not_space l⟩
  · intro pre l post hl hsp
    rw [readPlayers_eq, readPlayers_eq, hl]
    simp [trim_eq_nil_of_all_space l hsp]
  · intro n hn
    rw [readPlayers_eq]
    exact count_trimmed n hn lines

/-- A file with a padded name, a blank line and a repeated name. -/
theorem readPlayers_spec_witness :
    readPlayers ["  Roger Federer ".toList, " \t".toList, "Novak Djokovic".toList,
        "Roger Federer".toList] =
      ["Roger Federer".toList, "Novak Djokovic".toList, "Roger Federer".toList] :=
  (readPlayers_spec _).1.trans (by decide)

/-! ## `escapeCSV` and the reference reader -/

theorem needsQuoting_eq_false_iff (s : Str) :
    needsQuoting s = false ↔ '"' ∉ s ∧ ',' ∉ s ∧ '\n' ∉ s := by
  unfold needsQuoting
  induction s with
  | nil => simp
  | cons c cs ih =>
    rw [List.any_cons, Bool.or_eq_false_iff, ih]
    simp only [List.mem_cons, not_or, Bool.or_eq_false_iff, decide_eq_false_iff_not]
    constructor
    · rintro ⟨⟨⟨h1, h2⟩, h3⟩, h4, h5, h6⟩
      exact ⟨⟨fun h => h1 h.symm, h4⟩, ⟨fun h => h2 h.symm, h5⟩, ⟨fun h => h3 h.symm, h6⟩⟩
    · rintro ⟨⟨h1, h4⟩, ⟨h2, h5⟩, ⟨h3, h6⟩⟩
      exact ⟨⟨⟨fun h => h1 h.symm, fun h => h2 h.symm⟩, fun h => h3 h.symm⟩, h4, h5, h6⟩

theorem needsQuoting_eq_true_iff (s : Str) :
    needsQuoting s = true ↔ '"' ∈ s ∨ ',' ∈ s ∨ '\n' ∈ s := by
  constructor
  · intro h
    by_contra hc
    simp only [not_or] at hc
    have := (needsQuoting_eq_false_iff s).mpr hc
    rw [h] at this
    exact Bool.noConfusion this
  · intro h
    cases hq : needsQuoting s with
    | true => rfl
    | false =>
      have := (needsQuoting_eq_false_iff s).mp hq
      rcases h with h | h | h
      · exact absurd h this.1
      · exact absurd h this.2.1
      · exact absurd h this.2.2

theorem doubleQuotes_eq_flatMap (s : Str) :
    doubleQuotes s = s.flatMap (fun c => if c = '"' then ['"', '"'] else [c]) := by
  induction s with
  | nil => rfl
  | cons c cs ih =>
    unfold doubleQuotes
    rw [List.flatMap_cons, ih]
    by_cases h : c = '"' <;> simp [h]

theorem csvRun_cons (st : CsvState) (c : Char) (cs : Str) :
    csvRun st (c :: cs) =
      match csvStep st c with
      | some st1 => csvRun st1 cs
      | none => none := rfl

theorem csvRun_append (a b : Str) :
    ∀ st, csvRun st (a ++ b) =
      match csvRun st a with
      | some st1 => csvRun st1 b
      | none => none := by
  induction a with
  | nil => intro st; rfl
  | cons c cs ih =>
    intro st
    rw [List.cons_append, csvRun_cons, csvRun_cons]
    cases h : csvStep st c with
    | none => rfl
    | some st1 => exact ih st1

theorem csvRun_plain (s : Str) (hs : needsQuoting s = false) (hcr : '\r' ∉ s)
    (r : List Str) (rs : List (List Str)) :
    ∀ f, csvRun ⟨.plain, f, r, rs⟩ s = some ⟨.plain, f ++ s, r, rs⟩ := by
  induction s with
  | nil => intro f; simp [csvRun]
  | cons c cs ih =>
    intro f
    have hall := (needsQuoting_eq_false_iff (c :: cs)).mp hs
    have h1 : c ≠ '"' := fun h => hall.1 (by simp [h])
    have h2 : c ≠ ',' := fun h => hall.2.1 (by simp [h])
    have h3 : c ≠ '\n' := fun h => hall.2.2 (by simp [h])
    have h4 : c ≠ '\r' := fun h => hcr (by simp [h])
    have hcr2 : '\r' ∉ cs := fun h => hcr (List.mem_cons_of_mem _ h)
    have hcs : needsQuoting cs = false := by
      rw [needsQuoting_eq_false_iff]
      exact ⟨fun h => hall.1 (List.mem_cons_of_mem _ h),
        fun h => hall.2.1 (List.mem_cons_of_mem _ h),
        fun h => hall.2.2 (List.mem_cons_of_mem _ h)⟩
    rw [csvRun_cons]
    simp only [csvStep, plainStep, h1, h2, h3, h4, if_false]
    rw [ih hcs hcr2]
    simp

theorem csvRun_quoted (s : Str) (r : List Str) (rs : List (List Str)) :
    ∀ f, csvRun ⟨.quoted, f, r, rs⟩ (doubleQuotes s) = some ⟨.quoted, f ++ s, r, rs⟩ := by
  induction s with
  | nil => intro f; simp [csvRun, doubleQuotes]
  | cons c cs ih =>
    intro f
    by_cases h : c = '"'
    · subst h
      simp only [doubleQuotes, if_true, csvRun_cons, csvStep]
      rw [ih]
      simp
    · simp only [doubleQuotes, h, if_false, csvRun_cons, csvStep]
      rw [ih]
      simp

theorem csvRun_escapeCSV (v : Option Str) (hsafe : crSafe v) (r : List Str)
    (rs : List (List Str)) :
    csvRun ⟨.plain, [], r, rs⟩ (escapeCSV v) = some (afterField v r rs) := by
  cases v with
  | none => simp [escapeCSV, csvRun, afterField, fieldValue, needsQuoting]
  | some s =>
    simp only [escapeCSV, afterField, fieldValue, Option.getD_some]
    by_cases h : needsQuoting s = true
    · rw [if_pos h, if_pos h]
      rw [List.append_assoc, List.singleton_append, csvRun_cons]
      simp only [csvStep, plainStep, if_true]
      rw [csvRun_append, csvRun_quoted]
      simp [csvRun, csvStep]
    · rw [if_neg h, if_neg h]
      have h0 : needsQuoting s = false := by simpa using h
      rw [csvRun_plain s h0 (hsafe h0)]
      simp

theorem csvStep_afterField_comma (v : Option Str) (r : List Str) (rs : List (List Str)) :
    csvStep (afterField v r rs) ',' = some ⟨.plain, [], r ++ [fieldValue v], rs⟩ := by
  unfold afterField
  by_cases h : needsQuoting (fieldValue v) = true
  · rw [if_pos h]; simp [csvStep]
  · rw [if_neg h]; simp [csvStep, plainStep]

theorem csvStep_afterField_newline (v : Option Str) (r : List Str) (rs : List (List Str)) :
    csvStep (afterField v r rs) '\n' =
      some ⟨.plain, [], [], rs ++ [r ++ [fieldValue v]]⟩ := by
  unfold afterField
  by_cases h : needsQuoting (fieldValue v) = true
  · rw [if_pos h]; simp [csvStep, endRecord]
  · rw [if_neg h]; simp [csvStep, plainStep, endRecord]

theorem csvFinish_afterField (v : Option Str) (r : List Str) (rs : List (List Str))
    (h : needsQuoting (fieldValue v) = true ∨ r ≠ []) :
    csvFinish (afterField v r rs) = some (rs ++ [r ++ [fieldValue v]]) := by
  unfold afterField
  by_cases hq : needsQuoting (fieldValue v) = true
  · rw [if_pos hq]; simp [csvFinish]
  · rw [if_neg hq]
    have hr : r ≠ [] := h.resolve_left hq
    simp [csvFinish, hr]

theorem csvRun_fields (rs : List (List Str)) (vs : List (Option Str)) :
    ∀ (v : Option Str) (r : List Str), (∀ x ∈ v :: vs, crSafe x) →
      csvRun ⟨.plain, [], r, rs⟩ (join [','] ((v :: vs).map escapeCSV)) =
        some (afterField ((v :: vs).getLast (List.cons_ne_nil v vs))
          (r ++ ((v :: vs).dropLast).map fieldValue) rs) := by
  induction vs with
  | nil =>
    intro v r hsafe
    simp [join, csvRun_escapeCSV v (hsafe v (by simp))]
  | cons w ws ih =>
    intro v r hsafe
    rw [List.map_cons, List.map_cons, join, List.append_assoc, csvRun_append,
      csvRun_escapeCSV v (hsafe v (by simp))]
    simp only [List.singleton_append]
    rw [csvRun_cons, csvStep_afterField_comma]
    simp only []
    rw [← List.map_cons, ih w (r ++ [fieldValue v])
      (fun x hx => hsafe x (List.mem_cons_of_mem _ hx))]
    simp

theorem csvRun_line_newline (rs : List (List Str)) (v : Option Str) (vs : List (Option Str))
    (hsafe : ∀ x ∈ v :: vs, crSafe x) (r : List Str) (rest : Str) :
    csvRun ⟨.plain, [], r, rs⟩ (join [','] ((v :: vs).map escapeCSV) ++ ['\n'] ++ rest) =
      csvRun ⟨.plain, [], [], rs ++ [r ++ (v :: vs).map fieldValue]⟩ rest := by
  rw [List.append_assoc, csvRun_append, csvRun_fields rs vs v r hsafe]
  simp only [List.singleton_append]
  rw [csvRun_cons, csvStep_afterField_newline]
  simp only []
  have h : (v :: vs).dropLast.map fieldValue ++
      [fieldValue ((v :: vs).getLast (List.cons_ne_nil v vs))] = (v :: vs).map fieldValue := by
    rw [← List.map_singleton, ← List.map_append, List.dropLast_append_getLast]
  rw [List.append_assoc, h]

theorem csvFinish_line (rs : List (List Str)) (v w : Option Str) (vs : List (Option Str))
    (hsafe : ∀ x ∈ v :: w :: vs, crSafe x) :
    (match csvRun ⟨.plain, [], [], rs⟩ (join [','] ((v :: w :: vs).map escapeCSV)) with
      | some st => csvFinish st
      | none => none) = some (rs ++ [(v :: w :: vs).map fieldValue]) := by
  rw [csvRun_fields rs (w :: vs) v [] hsafe]
  simp only []
  rw [csvFinish_afterField]
  · have h : (v :: w :: vs).dropLast.map fieldValue ++
        [fieldValue ((v :: w :: vs).getLast (List.cons_ne_nil v (w :: vs)))] =
        (v :: w :: vs).map fieldValue := by
      rw [← List.map_singleton, ← List.map_append, List.dropLast_append_getLast]
    rw [List.nil_append, h]
  · right
    simp

theorem readCSV_lines (recs : List (List (Option Str))) :
    ∀ (rec : List (Option Str)) (rs : List (List Str)),
      (∀ x ∈ rec :: recs, 2 ≤ x.length) →
      (∀ x ∈ rec :: recs, ∀ y ∈ x, crSafe y) →
      (match csvRun ⟨.plain, [], [], rs⟩ (join ['\n'] ((rec :: recs).map csvLine)) with
        | some st => csvFinish st
        | none => none) = some (rs ++ (rec :: recs).map (fun x => x.map fieldValue)) := by
  induction recs with
  | nil =>
    intro rec rs hlen hsafe
    have h2 := hlen rec (by simp)
    have hs := hsafe rec (by simp)
    match rec, h2, hs with
    | v :: w :: vs, _, hs =>
      simp only [List.map_cons, List.map_nil, join]
      exact csvFinish_line rs v w vs hs
  | cons rec2 recs ih =>
    intro rec rs hlen hsafe
    have h2 := hlen rec (by simp)
    have hs := hsafe rec (by simp)
    match rec, h2, hs with
    | v :: vs, _, hs =>
      rw [List.map_cons, List.map_cons, join]
      unfold csvLine
      rw [csvRun_line_newline rs v vs hs]
      have := ih rec2 (rs ++ [[] ++ (v :: vs).map fieldValue])
        (fun x hx => hlen x (List.mem_cons_of_mem _ hx))
        (fun x hx => hsafe x (List.mem_cons_of_mem _ hx))
      simpa [csvLine] using this

/-- C3: a string with a comma, a double quote or a line feed is written as the
string between double quotes with each of its double quotes doubled, and the
reference reader reads that field back as the string itself; a string with none
of the three characters is written unchanged. -/
theorem escapeCSV_spec (s : Str) :
    (('"' ∈ s ∨ ',' ∈ s ∨ '\n' ∈ s) →
      escapeCSV (some s) =
          ['"'] ++ s.flatMap (fun c => if c = '"' then ['"', '"'] else [c]) ++ ['"'] ∧
        readCSV (escapeCSV (some s)) = some [[s]]) ∧
    (('"' ∉ s ∧ ',' ∉ s ∧ '\n' ∉ s) → escapeCSV (some s) = s) := by
  constructor
  · intro h
    have hq : needsQuoting s = true := (needsQuoting_eq_true_iff s).mpr h
    have hsafe : crSafe (some s) := by
      intro h0
      rw [fieldValue, Option.getD_some, hq] at h0
      exact Bool.noConfusion h0
    constructor
    · simp only [escapeCSV]
      rw [if_pos hq, doubleQuotes_eq_flatMap]
    · unfold readCSV
      rw [csvRun_escapeCSV (some s) hsafe]
      simp only []
      rw [csvFinish_afterField (some s) [] [] (Or.inl hq)]
      rfl
  · intro h
    have hq : needsQuoting s = false := (needsQuoting_eq_false_iff s).mpr h
    simp only [escapeCSV]
    rw [hq]
    rfl

/-- The values `Smith, J.`, `6-4"` and a two-line value are quoted and read
back. -/
theorem escapeCSV_spec_witness :
    readCSV (escapeCSV (some "Smith, J.".toList)) = some [["Smith, J.".toList]] ∧
    readCSV (escapeCSV (some "6-4\"".toList)) = some [["6-4\"".toList]] ∧
    readCSV (escapeCSV (some "a\nb".toList)) = some [["a\nb".toList]] ∧
    escapeCSV (some "6-4".toList) = "6-4".toList :=
  ⟨((escapeCSV_spec "Smith, J.".toList).1 (by decide)).2,
   ((escapeCSV_spec "6-4\"".toList).1 (by decide)).2,
   ((escapeCSV_spec "a\nb".toList).1 (by decide)).2,
   (escapeCSV_spec "6-4".toList).2 (by decide)⟩

theorem csvText_eq (allRows : List Obj) :
    csvText allRows =
      join ['\n'] ((headers.map some :: allRows.map (fun row => headers.map (prop row))).map
        csvLine) := by
  unfold csvText csvLine
  simp [List.map_map, Function.comp_def]

theorem hitsBareCR_append_right (st : CsvState) (t u : Str) (h : hitsBareCR st t) :
    hitsBareCR st (t ++ u) := by
  obtain ⟨a, b, st1, ht, h1, h2⟩ := h
  exact ⟨a, b ++ u, st1, by rw [ht]; simp, h1, h2⟩

theorem hitsBareCR_append_left (st st1 : CsvState) (p t : Str)
    (hp : csvRun st p = some st1) (h : hitsBareCR st1 t) : hitsBareCR st (p ++ t) := by
  obtain ⟨a, b, st2, ht, h1, h2⟩ := h
  refine ⟨p ++ a, b, st2, by rw [ht]; simp, ?_, h2⟩
  rw [csvRun_append, hp]
  exact h1

theorem hitsBareCR_escapeCSV (v : Option Str) (h : ¬ crSafe v) (r : List Str)
    (rs : List (List Str)) : hitsBareCR ⟨.plain, [], r, rs⟩ (escapeCSV v) := by
  unfold crSafe at h
  have hq : needsQuoting (fieldValue v) = false := by
    by_contra hc
    exact h (fun h0 => absurd h0 hc)
  have hcr : '\r' ∈ fieldValue v := by
    by_contra hc
    exact h (fun _ => hc)
  cases v with
  | none => simp [fieldValue] at hcr
  | some s =>
    simp only [fieldValue, Option.getD_some] at hq hcr
    simp only [escapeCSV]
    rw [hq]
    obtain ⟨a, b, hsplit, hnot⟩ := List.eq_append_cons_of_mem hcr
    have hall := (needsQuoting_eq_false_iff s).mp hq
    have hsub : ∀ c, c ∈ a → c ∈ s := by
      intro c hc
      rw [hsplit]
      exact List.mem_append_left _ hc
    have hqa : needsQuoting a = false :=
      (needsQuoting_eq_false_iff a).mpr
        ⟨fun hc => hall.1 (hsub _ hc), fun hc => hall.2.1 (hsub _ hc),
          fun hc => hall.2.2 (hsub _ hc)⟩
    refine ⟨a, b, ⟨.plain, [] ++ a, r, rs⟩, ?_, csvRun_plain a hqa hnot r rs [], ?_⟩
    · simpa using hsplit
    · simp

theorem hitsBareCR_fields (rs : List (List Str)) (vs : List (Option Str)) :
    ∀ (v : Option Str) (r : List Str), (∃ x ∈ v :: vs, ¬ crSafe x) →
      hitsBareCR ⟨.plain, [], r, rs⟩ (join [','] ((v :: vs).map escapeCSV)) := by
  induction vs with
  | nil =>
    intro v r hbad
    obtain ⟨x, hx, hxbad⟩ := hbad
    have hxv : x = v := by simpa using hx
    subst hxv
    simpa [join] using hitsBareCR_escapeCSV x hxbad r rs
  | cons w ws ih =>
    intro v r hbad
    rw [List.map_cons, List.map_cons, join]
    by_cases hv : crSafe v
    · have hrest : ∃ x ∈ w :: ws, ¬ crSafe x := by
        obtain ⟨x, hx, hxbad⟩ := hbad
        rcases List.mem_cons.mp hx with h1 | h1
        · subst h1; exact absurd hv hxbad
        · exact ⟨x, h1, hxbad⟩
      have hrun : csvRun ⟨.plain, [], r, rs⟩ (escapeCSV v ++ [',']) =
          some ⟨.plain, [], r ++ [fieldValue v], rs⟩ := by
        rw [csvRun_append, csvRun_escapeCSV v hv]
        simp only []
        rw [csvRun_cons, csvStep_afterField_comma]
        rfl
      have := hitsBareCR_append_left _ _ _ _ hrun (ih w (r ++ [fieldValue v]) hrest)
      simpa using this
    · have := hitsBareCR_append_right _ _ ([','] ++ join [','] (escapeCSV w :: ws.map escapeCSV))
        (hitsBareCR_escapeCSV v hv r rs)
      simpa using this

theorem hitsBareCR_lines (recs : List (List (Option Str))) :
    ∀ (rec : List (Option Str)) (rs : List (List Str)),
      (∀ x ∈ rec :: recs, 2 ≤ x.length) →
      (∃ x ∈ rec :: recs, ∃ y ∈ x, ¬ crSafe y) →
      hitsBareCR ⟨.plain, [], [], rs⟩ (join ['\n'] ((rec :: recs).map csvLine)) := by
  induction recs with
  | nil =>
    intro rec rs hlen hbad
    obtain ⟨x, hx, hxbad⟩ := hbad
    have hxr : x = rec := by simpa using hx
    subst hxr
    have h2 := hlen x (by simp)
    match x, h2, hxbad with
    | v :: vs, _, hxbad =>
      simpa [join, csvLine] using hitsBareCR_fields rs vs v [] hxbad
  | cons rec2 recs ih =>
    intro rec rs hlen hbad
    have h2 := hlen rec (by simp)
    rw [List.map_cons, List.map_cons, join]
    by_cases hrec : ∀ y ∈ rec, crSafe y
    · have hrest : ∃ x ∈ rec2 :: recs, ∃ y ∈ x, ¬ crSafe y := by
        obtain ⟨x, hx, y, hy, hybad⟩ := hbad
        rcases List.mem_cons.mp hx with h1 | h1
        · subst h1; exact absurd (hrec y hy) hybad
        · exact ⟨x, h1, y, hy, hybad⟩
      match rec, h2, hrec with
      | v :: vs, _, hrec =>
        have hrun : csvRun ⟨.plain, [], [], rs⟩ (csvLine (v :: vs) ++ ['\n']) =
            some ⟨.plain, [], [], rs ++ [[] ++ (v :: vs).map fieldValue]⟩ := by
          have := csvRun_line_newline rs v vs hrec [] []
          simpa [csvLine, csvRun] using this
        have := hitsBareCR_append_left _ _ _ _ hrun
          (ih rec2 (rs ++ [[] ++ (v :: vs).map fieldValue])
            (fun x hx => hlen x (List.mem_cons_of_mem _ hx)) hrest)
        simpa using this
    · have hex : ∃ y ∈ rec, ¬ crSafe y := by
        by_contra hc
        exact hrec (fun y hy => by
          by_contra hy2
          exact hc ⟨y, hy, hy2⟩)
      match rec, h2, hex with
      | v :: vs, _, hex =>
        have := hitsBareCR_append_right _ _
          (['\n'] ++ join ['\n'] (csvLine rec2 :: recs.map csvLine))
          (hitsBareCR_fields rs vs v [] hex)
        simpa [csvLine] using this

theorem crCount_step_le (st st1 : CsvState) (c : Char) (h : csvStep st c = some st1) :
    crCount st1 ≤ crCount st + (if c = '\r' then 1 else 0) := by
  obtain ⟨mode, field, record, records⟩ := st
  cases mode <;> simp only [csvStep, plainStep, endRecord] at h <;> split_ifs at h <;>
    first
    | exact Option.noConfusion h
    | (injection h with h
       subst h
       simp only [crCount, List.flatten_append, List.flatten_cons, List.flatten_nil,
         List.count_append, List.count_cons, List.count_nil, List.append_nil]
       split_ifs <;> simp_all <;> omega)

theorem crCount_step_cr (st st1 : CsvState) (hm : st.mode ≠ .quoted)
    (h : csvStep st '\r' = some st1) : crCount st1 ≤ crCount st := by
  obtain ⟨mode, field, record, records⟩ := st
  cases mode <;> simp only [csvStep, plainStep, endRecord] at h <;> split_ifs at h <;>
    first
    | exact absurd rfl hm
    | exact Option.noConfusion h
    | (injection h with h
       subst h
       simp only [crCount, List.flatten_append, List.flatten_cons, List.flatten_nil,
         List.count_append, List.count_cons, List.count_nil, List.append_nil]
       first
       | omega
       | simp)

theorem crCount_run_le (t : Str) :
    ∀ st st1, csvRun st t = some st1 → crCount st1 ≤ crCount st + t.count '\r' := by
  induction t with
  | nil =>
    intro st st1 h
    simp only [csvRun] at h
    injection h with h
    subst h
    simp
  | cons c cs ih =>
    intro st st1 h
    rw [csvRun_cons] at h
    cases hs : csvStep st c with
    | none => rw [hs] at h; exact Option.noConfusion h
    | some st2 =>
      rw [hs] at h
      have h1 := crCount_step_le st st2 c hs
      have h2 := ih st2 st1 h
      rw [List.count_cons]
      by_cases hc : c = '\r'
      · simp only [hc, if_true] at h1
        simp only [hc, beq_self_eq_true, if_true]
        omega
      · simp only [hc, if_false] at h1
        have hb : (c == '\r') = false := by simpa using hc
        simp only [hb]
        simp
        omega

theorem crCount_finish (st : CsvState) (recs : List (List Str))
    (h : csvFinish st = some recs) : (recs.flatten.flatten).count '\r' ≤ crCount st := by
  obtain ⟨mode, field, record, records⟩ := st
  cases mode <;> simp only [csvFinish] at h <;> (try split_ifs at h) <;>
    first
    | exact Option.noConfusion h
    | (injection h with h
       subst h
       simp only [crCount, List.flatten_append, List.flatten_cons, List.flatten_nil,
         List.count_append, List.count_cons, List.count_nil, List.append_nil]
       omega)

theorem hitsBareCR_count_lt (t : Str) (recs : List (List Str))
    (hbad : hitsBareCR ⟨.plain, [], [], []⟩ t) (h : readCSV t = some recs) :
    (recs.flatten.flatten).count '\r' < t.count '\r' := by
  obtain ⟨a, b, st1, ht, hrun, hmode⟩ := hbad
  unfold readCSV at h
  rw [ht, csvRun_append, hrun] at h
  simp only [] at h
  rw [csvRun_cons] at h
  cases hs : csvStep st1 '\r' with
  | none => rw [hs] at h; exact Option.noConfusion h
  | some st2 =>
    rw [hs] at h
    simp only [] at h
    cases hr : csvRun st2 b with
    | none => rw [hr] at h; exact Option.noConfusion h
    | some st3 =>
      rw [hr] at h
      simp only [] at h
      have h1 := crCount_run_le a _ _ hrun
      have h2 := crCount_step_cr st1 st2 hmode hs
      have h3 := crCount_run_le b _ _ hr
      have h4 := crCount_finish st3 recs h
      have h0 : crCount ⟨.plain, [], [], []⟩ = 0 := by simp [crCount]
      rw [ht, List.count_append, List.count_cons]
      simp only [beq_self_eq_true, if_true]
      omega

theorem count_doubleQuotes (s : Str) : (doubleQuotes s).count '\r' = s.count '\r' := by
  induction s with
  | nil => rfl
  | cons c cs ih =>
    unfold doubleQuotes
    by_cases h : c = '"'
    · subst h
      rw [if_pos rfl]
      simp [List.count_cons, ih]
    · rw [if_neg h]
      simp [List.count_cons, ih]

theorem count_escapeCSV (v : Option Str) :
    (escapeCSV v).count '\r' = (fieldValue v).count '\r' := by
  cases v with
  | none => rfl
  | some s =>
    simp only [escapeCSV, fieldValue, Option.getD_some]
    split_ifs
    · simp [List.count_append, List.count_cons, count_doubleQuotes]
    · rfl

theorem count_join (sep : Str) (hsep : sep.count '\r' = 0) (xs : List Str) :
    (join sep xs).count '\r' = (xs.flatten).count '\r' := by
  induction xs with
  | nil => rfl
  | cons x rest ih =>
    cases rest with
    | nil => simp [join]
    | cons y ys =>
      rw [join, List.count_append, List.count_append, hsep, ih]
      simp [List.count_append]

theorem count_csvLine (rec : List (Option Str)) :
    (csvLine rec).count '\r' = ((rec.map fieldValue).flatten).count '\r' := by
  unfold csvLine
  rw [count_join [','] (by decide)]
  induction rec with
  | nil => rfl
  | cons v vs ih =>
    simp only [List.map_cons, List.flatten_cons, List.count_append, count_escapeCSV]
    rw [ih]

theorem count_csvLines (recs : List (List (Option Str))) :
    (join ['\n'] (recs.map csvLine)).count '\r' =
      (((recs.map (fun x => x.map fieldValue)).flatten).flatten).count '\r' := by
  rw [count_join ['\n'] (by decide)]
  induction recs with
  | nil => rfl
  | cons r rs ih =>
    simp only [List.map_cons, List.flatten_cons, List.flatten_append, List.count_append,
      count_csvLine]
    rw [ih]

/-- The CSV text of records of at least two values reads back as the records
exactly when every value is one an unquoted carriage return does not break. -/
theorem readCSV_lines_iff (rec : List (Option Str)) (recs : List (List (Option Str)))
    (hlen : ∀ x ∈ rec :: recs, 2 ≤ x.length) :
    readCSV (join ['\n'] ((rec :: recs).map csvLine)) =
        some ((rec :: recs).map (fun x => x.map fieldValue)) ↔
      ∀ x ∈ rec :: recs, ∀ y ∈ x, crSafe y := by
  constructor
  · intro h
    by_contra hc
    have hex : ∃ x ∈ rec :: recs, ∃ y ∈ x, ¬ crSafe y := by
      by_contra hc2
      apply hc
      intro x hx y hy
      by_contra hy2
      exact hc2 ⟨x, hx, y, hy, hy2⟩
    have hlt := hitsBareCR_count_lt _ _ (hitsBareCR_lines recs rec [] hlen hex) h
    rw [count_csvLines] at hlt
    exact Nat.lt_irrefl _ hlt
  · intro hsafe
    have := readCSV_lines recs rec [] hlen hsafe
    unfold readCSV
    simpa using this

theorem crSafe_iff (o : Option Str) :
    crSafe o ↔ ∀ v, o = some v → '\r' ∈ v → ('"' ∈ v ∨ ',' ∈ v ∨ '\n' ∈ v) := by
  cases o with
  | none => simp [crSafe, fieldValue]
  | some s =>
    simp only [crSafe, fieldValue, Option.getD_some, Option.some.injEq]
    constructor
    · intro h v hv hcr
      subst hv
      by_contra hc
      exact h ((needsQuoting_eq_false_iff s).mpr (by simpa [not_or] using hc)) hcr
    · intro h hq hcr
      have hall := (needsQuoting_eq_false_iff s).mp hq
      rcases h s rfl hcr with h1 | h1 | h1
      · exact hall.1 h1
      · exact hall.2.1 h1
      · exact hall.2.2 h1

theorem headers_eq :
    headers = ["Player", "Age", "Plays", "Date", "Tournament", "Rk", "vRk", "DR", "A%",
      "DF%", "BPSvd", "Opponent"].map String.toList := rfl

theorem crSafe_headers : ∀ y ∈ headers.map some, crSafe y := by
  intro y hy
  obtain ⟨k, hk, rfl⟩ := List.mem_map.mp hy
  rw [crSafe_iff]
  intro v hv hcr
  injection hv with hv
  subst hv
  revert hcr
  revert k
  decide

/-- C8, as the claim states it, fails: for the one-row result set whose
`Tournament` is `Rio`, a carriage return, `Open`, the value is written unquoted
and the reader reads three records of 12, 5 and 8 fields, not a header record
and one record of 12 fields. -/
theorem csvText_bare_carriage_return :
    readCSV (csvText [[("Tournament".toList, "Rio\rOpen".toList)]]) =
      some [["Player".toList, "Age".toList, "Plays".toList, "Date".toList,
          "Tournament".toList, "Rk".toList, "vRk".toList, "DR".toList, "A%".toList,
          "DF%".toList, "BPSvd".toList, "Opponent".toList],
        [[], [], [], [], "Rio".toList],
        ["Open".toList, [], [], [], [], [], [], []]] ∧
    readCSV (csvText [[("Tournament".toList, "Rio\rOpen".toList)]]) ≠
      some [["Player".toList, "Age".toList, "Plays".toList, "Date".toList,
          "Tournament".toList, "Rk".toList, "vRk".toList, "DR".toList, "A%".toList,
          "DF%".toList, "BPSvd".toList, "Opponent".toList],
        [[], [], [], [], "Rio\rOpen".toList, [], [], [], [], [], [], []]] := by
  decide

/-- C8, amended: the reference reader reads the CSV text of `main` as a first
record holding the 12 header names in the fixed order followed by one record per
row of the result set, in order, each holding the row's values for the 12 keys
in that order (the empty string for a key the row does not have), exactly when
every such value that holds a carriage return also holds a comma, a double quote
or a line feed; the text then has one more records than rows, each of 12
fields. -/
theorem csvText_readCSV (allRows : List Obj) :
    (readCSV (csvText allRows) =
        some ((["Player", "Age", "Plays", "Date", "Tournament", "Rk", "vRk", "DR", "A%",
                "DF%", "BPSvd", "Opponent"].map String.toList) ::
          allRows.map (fun row =>
            ["Player", "Age", "Plays", "Date", "Tournament", "Rk", "vRk", "DR", "A%",
              "DF%", "BPSvd", "Opponent"].map (fun h => (prop row h.toList).getD []))) ↔
      ∀ row ∈ allRows, ∀ h ∈ ["Player", "Age", "Plays", "Date", "Tournament", "Rk", "vRk",
          "DR", "A%", "DF%", "BPSvd", "Opponent"], ∀ v, prop row (String.toList h) = some v →
        '\r' ∈ v → ('"' ∈ v ∨ ',' ∈ v ∨ '\n' ∈ v)) ∧
    ((∀ row ∈ allRows, ∀ h ∈ ["Player", "Age", "Plays", "Date", "Tournament", "Rk", "vRk",
          "DR", "A%", "DF%", "BPSvd", "Opponent"], ∀ v, prop row (String.toList h) = some v →
        '\r' ∈ v → ('"' ∈ v ∨ ',' ∈ v ∨ '\n' ∈ v)) →
      ∃ recs, readCSV (csvText allRows) = some recs ∧
        recs.length = allRows.length + 1 ∧ ∀ rec ∈ recs, rec.length = 12) := by
  have hlen : ∀ x ∈ headers.map some :: allRows.map (fun row => headers.map (prop row)),
      2 ≤ x.length := by
    intro x hx
    rcases List.mem_cons.mp hx with h | h
    · rw [h]; decide
    · obtain ⟨row, _, rfl⟩ := List.mem_map.mp h
      rw [List.length_map]; decide
  have key := readCSV_lines_iff (headers.map some)
    (allRows.map (fun row => headers.map (prop row))) hlen
  rw [← csvText_eq] at key
  have hE : (headers.map some :: allRows.map (fun row => headers.map (prop row))).map
        (fun x => x.map fieldValue) =
      (["Player", "Age", "Plays", "Date", "Tournament", "Rk", "vRk", "DR", "A%",
                "DF%", "BPSvd", "Opponent"].map String.toList) ::
          allRows.map (fun row =>
            ["Player", "Age", "Plays", "Date", "Tournament", "Rk", "vRk", "DR", "A%",
              "DF%", "BPSvd", "Opponent"].map (fun h => (prop row h.toList).getD [])) := by
    simp [headers, fieldValue, List.map_map, Function.comp_def]
  rw [hE] at key
  have hcond : (∀ x ∈ headers.map some :: allRows.map (fun row => headers.map (prop row)),
        ∀ y ∈ x, crSafe y) ↔
      ∀ row ∈ allRows, ∀ h ∈ ["Player", "Age", "Plays", "Date", "Tournament", "Rk", "vRk",
          "DR", "A%", "DF%", "BPSvd", "Opponent"], ∀ v, prop row (String.toList h) = some v →
        '\r' ∈ v → ('"' ∈ v ∨ ',' ∈ v ∨ '\n' ∈ v) := by
    constructor
    · intro hall row hrow h hh
      have hx : headers.map (prop row) ∈
          headers.map some :: allRows.map (fun row => headers.map (prop row)) :=
        List.mem_cons_of_mem _ (List.mem_map.mpr ⟨row, hrow, rfl⟩)
      have hy : prop row (String.toList h) ∈ headers.map (prop row) := by
        rw [headers_eq, List.map_map]
        exact List.mem_map.mpr ⟨h, hh, rfl⟩
      exact (crSafe_iff _).mp (hall _ hx _ hy)
    · intro hall x hx y hy
      rcases List.mem_cons.mp hx with h | h
      · rw [h] at hy
        exact crSafe_headers y hy
      · obtain ⟨row, hrow, rfl⟩ := List.mem_map.mp h
        rw [headers_eq, List.map_map] at hy
        obtain ⟨k, hk, rfl⟩ := List.mem_map.mp hy
        exact (crSafe_iff _).mpr (hall row hrow k hk)
  rw [hcond] at key
  refine ⟨key, fun hall => ⟨_, key.mpr hall, ?_, ?_⟩⟩
  · simp
  · intro rec hrec
    rcases List.mem_cons.mp hrec with h | h
    · rw [h]; rfl
    · obtain ⟨row, _, rfl⟩ := List.mem_map.mp h
      rfl

/-- One row with a comma in one value, a carriage return next to a quote in
another, and without the other keys. -/
theorem csvText_readCSV_witness :
    readCSV (csvText [[("Player".toList, "Smith, J.".toList),
        ("Tournament".toList, "Rio\r\"Open\"".toList)]]) =
      some [["Player".toList, "Age".toList, "Plays".toList, "Date".toList,
          "Tournament".toList, "Rk".toList, "vRk".toList, "DR".toList, "A%".toList,
          "DF%".toList, "BPSvd".toList, "Opponent".toList],
        ["Smith, J.".toList, [], [], [], "Rio\r\"Open\"".toList, [], [], [], [], [], [], []]] :=
  ((csvText_readCSV [[("Player".toList, "Smith, J.".toList),
      ("Tournament".toList, "Rio\r\"Open\"".toList)]]).1.mpr (by decide)).trans (by decide)

/-! ## The URL -/

/-- C1: for the name `Juan Martin del Potro` the URL built by `scrapePlayer`
keeps the second and third space, encoded as `%20`: only the first space is
removed. -/
theorem playerUrl_del_potro :
    playerUrl "Juan Martin del Potro".toList =
      "https://www.tennisabstract.com/cgi-bin/player.cgi?p=JuanMartin%20del%20Potro".toList := by
  decide

/-! ## The orchestrator loop -/

theorem pushRows_eq (player : Str) (rows : List ScrapedRow) :
    ∀ allRows, pushRows player allRows rows = allRows ++ rows.map (withPlayer player) := by
  induction rows with
  | nil => intro allRows; simp [pushRows]
  | cons r rest ih => intro allRows; simp [pushRows, ih]

theorem mainLoopFrom_eq (runs : List (Str × Except Str (List ScrapedRow))) :
    ∀ st, (mainLoopFrom st runs).allRows = st.allRows ++ runs.flatMap rowsOf ∧
      (mainLoopFrom st runs).trace = st.trace ++ runs.flatMap eventsOf := by
  induction runs with
  | nil => intro st; simp [mainLoopFrom]
  | cons run rest ih =>
    intro st
    obtain ⟨player, outcome⟩ := run
    rw [mainLoopFrom]
    have h := ih (mainStep st player outcome)
    rw [h.1, h.2]
    cases outcome with
    | error message => simp [mainStep, rowsOf, eventsOf]
    | ok rows => simp [mainStep, rowsOf, eventsOf, pushRows_eq]

theorem count_pause_eventsOf (runs : List (Str × Except Str (List ScrapedRow))) :
    (runs.flatMap eventsOf).count (Event.pause 1200) = (runs.filter succeeded).length := by
  induction runs with
  | nil => rfl
  | cons run rest ih =>
    obtain ⟨player, outcome⟩ := run
    rw [List.flatMap_cons, List.count_append, ih, List.filter_cons]
    cases outcome with
    | error message => simp [eventsOf, succeeded, List.count_cons]
    | ok rows => simp [eventsOf, succeeded, List.count_cons]; omega

/-- C2: with one player whose scrape fails, the loop performs no pause, so the
number of pauses is not the number of players. -/
theorem pause_skipped_on_failure :
    (mainLoop [("Roger Federer".toList, Except.error "timeout".toList)]).trace.count
        (Event.pause 1200) ≠
      [("Roger Federer".toList,
        (Except.error "timeout".toList : Except Str (List ScrapedRow)))].length := by
  decide

/-- The events of the loop are, player after player, the start of the player
followed by one pause of 1200 ms when the scrape returned rows, and by the error
report (and no pause) when it failed; so the number of pauses is the number of
players whose scrape returned rows, and every pause is 1200 ms. -/
theorem mainLoop_pauses (runs : List (Str × Except Str (List ScrapedRow))) :
    (mainLoop runs).trace = runs.flatMap (fun run =>
        match run.2 with
        | .ok _ => [Event.started run.1, Event.pause 1200]
        | .error message => [Event.started run.1, Event.failed run.1 message]) ∧
    (mainLoop runs).trace.count (Event.pause 1200) =
      (runs.filter (fun run => match run.2 with | .ok _ => true | .error _ => false)).length ∧
    (∀ ms, Event.pause ms ∈ (mainLoop runs).trace → ms = 1200) := by
  have h := (mainLoopFrom_eq runs ⟨[], []⟩).2
  have htrace : (mainLoop runs).trace = runs.flatMap eventsOf := by
    unfold mainLoop; rw [h]; rfl
  refine ⟨htrace, ?_, ?_⟩
  · rw [htrace]; exact count_pause_eventsOf runs
  · intro ms hms
    rw [htrace] at hms
    obtain ⟨run, _, hrun⟩ := List.mem_flatMap.mp hms
    obtain ⟨player, outcome⟩ := run
    cases outcome with
    | error message => simp [eventsOf] at hrun
    | ok rows => simpa [eventsOf] using hrun

/-- C7: the result set after the loop is the concatenation, in player order, of
the rows of the players whose scrape returned rows, each row holding the player's
name under `Player` and the scraped row's own value under each of its eleven
keys; a player whose scrape fails adds nothing and the players after it are
still processed. -/
theorem mainLoop_allRows (runs : List (Str × Except Str (List ScrapedRow))) :
    (mainLoop runs).allRows = runs.flatMap (fun run =>
        match run.2 with
        | .ok rows => rows.map (fun r =>
            [("Player".toList, run.1), ("Date".toList, r.Date),
             ("Tournament".toList, r.Tournament), ("Rk".toList, r.Rk),
             ("vRk".toList, r.vRk), ("DR".toList, r.DR), ("A%".toList, r.APct),
             ("DF%".toList, r.DFPct), ("BPSvd".toList, r.BPSvd),
             ("Opponent".toList, r.Opponent), ("Age".toList, r.Age),
             ("Plays".toList, r.Plays)])
        | .error _ => []) ∧
    (∀ (player : Str) (r : ScrapedRow),
      prop (withPlayer player r) "Player".toList = some player ∧
      prop (withPlayer player r) "Age".toList = some r.Age ∧
      prop (withPlayer player r) "Plays".toList = some r.Plays ∧
      prop (withPlayer player r) "Date".toList = some r.Date ∧
      prop (withPlayer player r) "Tournament".toList = some r.Tournament ∧
      prop (withPlayer player r) "Rk".toList = some r.Rk ∧
      prop (withPlayer player r) "vRk".toList = some r.vRk ∧
      prop (withPlayer player r) "DR".toList = some r.DR ∧
      prop (withPlayer player r) "A%".toList = some r.APct ∧
      prop (withPlayer player r) "DF%".toList = some r.DFPct ∧
      prop (withPlayer player r) "BPSvd".toList = some r.BPSvd ∧
      prop (withPlayer player r) "Opponent".toList = some r.Opponent) ∧
    (∀ (pre post : List (Str × Except Str (List ScrapedRow))) (player message : Str),
      runs = pre ++ (player, Except.error message) :: post →
      (mainLoop runs).allRows = (mainLoop pre).allRows ++ (mainLoop post).allRows) := by
  have h : ∀ rs, (mainLoop rs).allRows = rs.flatMap rowsOf := by
    intro rs
    have := (mainLoopFrom_eq rs ⟨[], []⟩).1
    unfold mainLoop; rw [this]; rfl
  refine ⟨h runs, ?_, ?_⟩
  · intro player r
    simp [withPlayer, prop]
  · intro pre post player message hruns
    rw [h runs, h pre, h post, hruns]
    simp [rowsOf]

/-- Three players with a failure on the second: the rows of the first and the
third are all in the result set, in order, with all their values. -/
theorem mainLoop_allRows_witness :
    (mainLoop [("A".toList, Except.ok [⟨"d1".toList, "t1".toList, "rk1".toList,
          "vrk1".toList, "dr1".toList, "a1".toList, "df1".toList, "b1".toList,
          "o1".toList, "age1".toList, "pl1".toList⟩]),
        ("B".toList, Except.error "timeout".toList),
        ("C".toList, Except.ok [⟨"d2".toList, "t2".toList, "rk2".toList,
          "vrk2".toList, "dr2".toList, "a2".toList, "df2".toList, "b2".toList,
          "o2".toList, "age2".toList, "pl2".toList⟩,
          ⟨"d3".toList, [], [], [], [], [], [], [], [], [], []⟩])]).allRows =
      [[("Player".toList, "A".toList), ("Date".toList, "d1".toList),
        ("Tournament".toList, "t1".toList), ("Rk".toList, "rk1".toList),
        ("vRk".toList, "vrk1".toList), ("DR".toList, "dr1".toList),
        ("A%".toList, "a1".toList), ("DF%".toList, "df1".toList),
        ("BPSvd".toList, "b1".toList), ("Opponent".toList, "o1".toList),
        ("Age".toList, "age1".toList), ("Plays".toList, "pl1".toList)],
       [("Player".toList, "C".toList), ("Date".toList, "d2".toList),
        ("Tournament".toList, "t2".toList), ("Rk".toList, "rk2".toList),
        ("vRk".toList, "vrk2".toList), ("DR".toList, "dr2".toList),
        ("A%".toList, "a2".toList), ("DF%".toList, "df2".toList),
        ("BPSvd".toList, "b2".toList), ("Opponent".toList, "o2".toList),
        ("Age".toList, "age2".toList), ("Plays".toList, "pl2".toList)],
       [("Player".toList, "C".toList), ("Date".toList, "d3".toList),
        ("Tournament".toList, []), ("Rk".toList, []), ("vRk".toList, []),
        ("DR".toList, []), ("A%".toList, []), ("DF%".toList, []), ("BPSvd".toList, []),
        ("Opponent".toList, []), ("Age".toList, []), ("Plays".toList, [])]] :=
  (mainLoop_allRows _).1.trans (by decide)

/-! ## The table locator -/

theorem includes_iff (xs : List Str) (x : Str) : includes xs x = true ↔ x ∈ xs := by
  induction xs with
  | nil => simp [includes]
  | cons y ys ih =>
    unfold includes
    by_cases h : y = x
    · simp [h]
    · rw [if_neg h, ih]
      constructor
      · exact fun hm => List.mem_cons_of_mem _ hm
      · intro hm
        rcases List.mem_cons.mp hm with h1 | h1
        · exact absurd h1.symm h
        · exact h1

theorem qualifies_iff (t : Elem) :
    (includes (getHeaders t) lblDate && includes (getHeaders t) lblScore) = true ↔
      "Date".toList ∈ getHeaders t ∧ "Score".toList ∈ getHeaders t := by
  rw [Bool.and_eq_true, includes_iff, includes_iff]
  rfl

theorem findTarget_some_iff (tables : List Elem) (t : Elem) :
    findTarget tables = some t ↔
      ∃ pre post, tables = pre ++ t :: post ∧
        ("Date".toList ∈ getHeaders t ∧ "Score".toList ∈ getHeaders t) ∧
        ∀ u ∈ pre, ¬ ("Date".toList ∈ getHeaders u ∧ "Score".toList ∈ getHeaders u) := by
  induction tables with
  | nil => simp [findTarget]
  | cons a rest ih =>
    simp only [findTarget]
    by_cases hq : (includes (getHeaders a) lblDate && includes (getHeaders a) lblScore) = true
    · rw [if_pos hq]
      constructor
      · intro h
        injection h with h
        subst h
        exact ⟨[], rest, rfl, (qualifies_iff a).mp hq, by simp⟩
      · rintro ⟨pre, post, hsplit, _, hpre⟩
        cases pre with
        | nil =>
          rw [List.nil_append] at hsplit
          injection hsplit with h1 _
          rw [h1]
        | cons b pre1 =>
          rw [List.cons_append] at hsplit
          injection hsplit with h1 _
          exact absurd ((qualifies_iff a).mp hq) (h1 ▸ hpre b (by simp))
    · rw [if_neg hq, ih]
      constructor
      · rintro ⟨pre, post, hsplit, ht, hpre⟩
        refine ⟨a :: pre, post, by rw [hsplit]; rfl, ht, ?_⟩
        intro u hu
        rcases List.mem_cons.mp hu with h1 | h1
        · rw [h1]; exact fun h => hq ((qualifies_iff a).mpr h)
        · exact hpre u h1
      · rintro ⟨pre, post, hsplit, ht, hpre⟩
        cases pre with
        | nil =>
          rw [List.nil_append] at hsplit
          injection hsplit with h1 _
          exact absurd ((qualifies_iff a).mpr (h1 ▸ ht)) hq
        | cons b pre1 =>
          rw [List.cons_append] at hsplit
          injection hsplit with h1 h2
          exact ⟨pre1, post, h2, ht, fun u hu => hpre u (List.mem_cons_of_mem _ hu)⟩

theorem findTarget_none_iff (tables : List Elem) :
    findTarget tables = none ↔
      ∀ t ∈ tables, ¬ ("Date".toList ∈ getHeaders t ∧ "Score".toList ∈ getHeaders t) := by
  induction tables with
  | nil => simp [findTarget]
  | cons a rest ih =>
    simp only [findTarget]
    by_cases hq : (includes (getHeaders a) lblDate && includes (getHeaders a) lblScore) = true
    · rw [if_pos hq]
      constructor
      · intro h; exact Option.noConfusion h
      · intro h; exact absurd ((qualifies_iff a).mp hq) (h a (by simp))
    · rw [if_neg hq, ih]
      constructor
      · intro h u hu
        rcases List.mem_cons.mp hu with h1 | h1
        · rw [h1]; exact fun h2 => hq ((qualifies_iff a).mpr h2)
        · exact h u h1
      · intro h u hu
        exact h u (List.mem_cons_of_mem _ hu)

/-- C4: the header labels of a table are the trimmed texts of its `thead` header
cells if it has any, else of the header cells of any of its rows; the locator
returns a table exactly when that table has both `Date` and `Score` among its
header labels (wherever they stand) and no table before it in the list has; it
returns nothing exactly when no table has both labels, and then the extraction
returns no row. -/
theorem findTarget_spec (tables : List Elem) :
    (∀ t, getHeaders t =
      if (querySelectorAll t [["thead", "tr", "th"]]).isEmpty then
        (querySelectorAll t [["tr", "th"]]).map (fun th => trim th.textContent)
      else
        (querySelectorAll t [["thead", "tr", "th"]]).map (fun th => trim th.textContent)) ∧
    (∀ t, findTarget tables = some t ↔
      ∃ pre post, tables = pre ++ t :: post ∧
        ("Date".toList ∈ getHeaders t ∧ "Score".toList ∈ getHeaders t) ∧
        ∀ u ∈ pre, ¬ ("Date".toList ∈ getHeaders u ∧ "Score".toList ∈ getHeaders u)) ∧
    (findTarget tables = none ↔
      ∀ t ∈ tables, ¬ ("Date".toList ∈ getHeaders t ∧ "Score".toList ∈ getHeaders t)) ∧
    ((∀ t ∈ tables, ¬ ("Date".toList ∈ getHeaders t ∧ "Score".toList ∈ getHeaders t)) →
      extractRows tables = []) := by
  refine ⟨?_, findTarget_some_iff tables, findTarget_none_iff tables, ?_⟩
  · intro t
    unfold getHeaders
    cases h : querySelectorAll t [["thead", "tr", "th"]] with
    | nil => simp
    | cons a as => simp
  · intro h
    unfold extractRows
    rw [(findTarget_none_iff tables).mpr h]

/-! ## The wait predicate and the locator -/

theorem ancestorsMatch_first (s : String) (ss : List String) :
    ∀ anc, ancestorsMatch (s :: ss) anc = true → ancestorsMatch [s] anc = true := by
  intro anc
  induction anc with
  | nil => intro h; simp [ancestorsMatch] at h
  | cons a as ih =>
    intro h
    unfold ancestorsMatch at h ⊢
    by_cases hs : s = a
    · rw [if_pos hs]; simp [ancestorsMatch]
    · rw [if_neg hs] at h; rw [if_neg hs]; exact ih h

theorem matches_thead_th (d : Elem) (h : matchesSelector d ["thead", "tr", "th"] = true) :
    matchesSelector d ["tr", "th"] = true := by
  simp only [matchesSelector, List.reverse_cons, List.reverse_nil, List.nil_append,
    List.cons_append, Bool.and_eq_true] at h ⊢
  exact ⟨h.1, ancestorsMatch_first "tr" ["thead"] d.anc h.2⟩

theorem querySelectorAll_both (t : Elem) :
    querySelectorAll t [["thead", "tr", "th"], ["tr", "th"]] =
      querySelectorAll t [["tr", "th"]] := by
  unfold querySelectorAll
  apply List.filter_congr
  intro d _
  simp only [List.any_cons, List.any_nil, Bool.or_false]
  cases h : matchesSelector d ["thead", "tr", "th"] with
  | false => simp
  | true => simp [matches_thead_th d h]

theorem mem_thead_th (t d : Elem) (h : d ∈ querySelectorAll t [["thead", "tr", "th"]]) :
    d ∈ querySelectorAll t [["tr", "th"]] := by
  unfold querySelectorAll at h ⊢
  rw [List.mem_filter] at h ⊢
  refine ⟨h.1, ?_⟩
  have h2 := h.2
  simp only [List.any_cons, List.any_nil, Bool.or_false] at h2 ⊢
  exact matches_thead_th d h2

theorem mem_getHeaders (t : Elem) (x : Str) (h : x ∈ getHeaders t) :
    x ∈ (querySelectorAll t [["tr", "th"]]).map (fun th => trim th.textContent) := by
  unfold getHeaders at h
  simp only [] at h
  by_cases hl : (querySelectorAll t [["thead", "tr", "th"]]).length ≠ 0
  · rw [if_pos hl] at h
    obtain ⟨d, hd, rfl⟩ := List.mem_map.mp h
    exact List.mem_map.mpr ⟨d, mem_thead_th t d hd, rfl⟩
  · rw [if_neg hl] at h
    exact h

theorem getHeaders_no_thead (t : Elem)
    (h : (querySelectorAll t [["thead", "tr", "th"]]).isEmpty = true) :
    getHeaders t = (querySelectorAll t [["tr", "th"]]).map (fun th => trim th.textContent) := by
  unfold getHeaders
  have h0 : querySelectorAll t [["thead", "tr", "th"]] = [] := List.isEmpty_iff.mp h
  simp [h0]

theorem waitPredicate_iff (tables : List Elem) :
    waitPredicate tables = true ↔
      ∃ t ∈ tables,
        "Date".toList ∈ (querySelectorAll t [["tr", "th"]]).map (fun th => trim th.textContent) ∧
        "Score".toList ∈ (querySelectorAll t [["tr", "th"]]).map (fun th => trim th.textContent) := by
  unfold waitPredicate
  rw [List.any_eq_true]
  constructor
  · rintro ⟨t, ht, h⟩
    simp only [querySelectorAll_both, Bool.and_eq_true, includes_iff] at h
    exact ⟨t, ht, h⟩
  · rintro ⟨t, ht, h⟩
    refine ⟨t, ht, ?_⟩
    simp only [querySelectorAll_both, Bool.and_eq_true, includes_iff]
    exact h

theorem findTarget_isSome_iff (tables : List Elem) :
    (findTarget tables).isSome = true ↔
      ∃ t ∈ tables, "Date".toList ∈ getHeaders t ∧ "Score".toList ∈ getHeaders t := by
  constructor
  · intro h
    by_contra hc
    have hn : findTarget tables = none :=
      (findTarget_none_iff tables).mpr (fun t ht hq => hc ⟨t, ht, hq⟩)
    rw [hn] at h
    exact Bool.noConfusion h
  · rintro ⟨t, ht, hq⟩
    cases hf : findTarget tables with
    | some u => rfl
    | none => exact absurd hq ((findTarget_none_iff tables).mp hf t ht)

/-- C10: on a page whose table has a `thead` header cell reading `Date` and a
header cell reading `Score` in a body row, the wait predicate is satisfied and
the locator accepts no table: it finds no target and the extraction returns no
row. -/
theorem wait_satisfied_no_target :
    waitPredicate (documentQuerySelectorAll exampleTable [["table"]]) = true ∧
    (findTarget (documentQuerySelectorAll exampleTable [["table"]])).isSome = false ∧
    evaluateRows exampleTable = [] := by
  decide

theorem getHeaders_usual (t : Elem)
    (h : (querySelectorAll t [["thead", "tr", "th"]]).isEmpty = true ∨
      querySelectorAll t [["tr", "th"]] = querySelectorAll t [["thead", "tr", "th"]]) :
    getHeaders t = (querySelectorAll t [["tr", "th"]]).map (fun th => trim th.textContent) := by
  rcases h with h | h
  · exact getHeaders_no_thead t h
  · unfold getHeaders
    simp only []
    split_ifs
    · rw [h]
    · rfl

/-- When the locator finds a target the wait predicate is satisfied; and on a
page each of whose tables has no `thead` header cell, or has all the header cells
of its rows inside `thead`, the wait predicate is satisfied exactly when the
locator finds a target. -/
theorem locator_agrees_with_wait (tables : List Elem) :
    ((findTarget tables).isSome = true → waitPredicate tables = true) ∧
    ((∀ t ∈ tables, (querySelectorAll t [["thead", "tr", "th"]]).isEmpty = true ∨
        querySelectorAll t [["tr", "th"]] = querySelectorAll t [["thead", "tr", "th"]]) →
      (waitPredicate tables = true ↔ (findTarget tables).isSome = true)) := by
  have h1 : (findTarget tables).isSome = true → waitPredicate tables = true := by
    intro h
    obtain ⟨t, ht, hd, hs⟩ := (findTarget_isSome_iff tables).mp h
    exact (waitPredicate_iff tables).mpr ⟨t, ht, mem_getHeaders t _ hd, mem_getHeaders t _ hs⟩
  refine ⟨h1, fun hno => ⟨?_, h1⟩⟩
  intro hw
  obtain ⟨t, ht, hd, hs⟩ := (waitPredicate_iff tables).mp hw
  refine (findTarget_isSome_iff tables).mpr ⟨t, ht, ?_⟩
  rw [getHeaders_usual t (hno t ht)]
  exact ⟨hd, hs⟩

/-! ## The row extractor -/

theorem indexOfFrom_eq (x : Str) (xs : List Str) :
    ∀ i : Nat, indexOfFrom x xs i =
      if x ∈ xs then ((i + xs.findIdx (fun y => decide (y = x)) : Nat) : Int) else -1 := by
  induction xs with
  | nil => intro i; simp [indexOfFrom]
  | cons y ys ih =>
    intro i
    unfold indexOfFrom
    rw [List.findIdx_cons]
    by_cases h : y = x
    · rw [if_pos h]
      simp [h]
    · rw [if_neg h, ih (i + 1)]
      have hne : x ≠ y := fun h1 => h h1.symm
      have hd : decide (y = x) = false := by simpa using h
      rw [hd]
      by_cases hm : x ∈ ys
      · rw [if_pos hm, if_pos (List.mem_cons_of_mem _ hm)]
        simp only [cond_false]
        congr 1
        omega
      · have hm2 : x ∉ y :: ys := fun h2 => by
          rcases List.mem_cons.mp h2 with h3 | h3
          · exact hne h3
          · exact hm h3
        rw [if_neg hm, if_neg hm2]

theorem indexOf_eq (xs : List Str) (x : Str) :
    indexOf xs x =
      if x ∈ xs then ((xs.findIdx (fun y => decide (y = x)) : Nat) : Int) else -1 := by
  unfold indexOf
  rw [indexOfFrom_eq]
  simp

theorem opponent_natIdx (tds : List Elem) (n : Nat) :
    opponent tds (n : Int) =
      match tds[n]? with
      | some td =>
        match querySelector td [["a"]] with
        | some link => trim link.textContent
        | none => trim td.textContent
      | none => [] := by
  unfold opponent
  by_cases h : n < tds.length
  · have h1 : (0 : Int) ≤ (n : Int) ∧ (n : Int) < (tds.length : Int) :=
      ⟨Int.ofNat_nonneg n, by exact_mod_cast h⟩
    rw [if_pos h1, Int.toNat_ofNat]
  · have h1 : ¬ ((0 : Int) ≤ (n : Int) ∧ (n : Int) < (tds.length : Int)) := by
      intro hc
      exact h (by exact_mod_cast hc.2)
    rw [if_neg h1, List.getElem?_eq_none (Nat.le_of_not_lt h)]

theorem oppIdx_present (a b : Nat) :
    oppIdx (a : Int) (b : Int) = ((min a b + 1 : Nat) : Int) := by
  unfold oppIdx
  have h : (a : Int) ≠ -1 ∧ (b : Int) ≠ -1 := ⟨by omega, by omega⟩
  rw [if_pos h]
  omega

theorem oppIdx_absent (v s : Int) (h : v = -1 ∨ s = -1) : oppIdx v s = -1 := by
  unfold oppIdx
  have h1 : ¬ (v ≠ -1 ∧ s ≠ -1) := by
    intro hc
    rcases h with h | h
    · exact hc.1 h
    · exact hc.2 h
  rw [if_neg h1]

/-- C5: when the header list has both `vRk` and `Score`, the `Opponent` of a row
is read from the cell at index `min(vRkIndex, ScoreIndex) + 1` (indices of the
first occurrences): the trimmed text of the first link in that cell if it has
one, else the trimmed text of the cell; when either label is absent or the row
has no cell at that index, `Opponent` is the empty string. -/
theorem opponent_spec (hdrs : List Str) (tr : Elem) :
    (("vRk".toList ∈ hdrs ∧ "Score".toList ∈ hdrs) →
      ∀ td, (querySelectorAll tr [["td"]])[min (hdrs.findIdx (fun h => decide (h = "vRk".toList)))
          (hdrs.findIdx (fun h => decide (h = "Score".toList))) + 1]? = some td →
        (rowRecord hdrs tr).Opponent =
          match querySelector td [["a"]] with
          | some link => trim link.textContent
          | none => trim td.textContent) ∧
    (("vRk".toList ∉ hdrs ∨ "Score".toList ∉ hdrs ∨
        (querySelectorAll tr [["td"]]).length ≤
          min (hdrs.findIdx (fun h => decide (h = "vRk".toList)))
            (hdrs.findIdx (fun h => decide (h = "Score".toList))) + 1) →
      (rowRecord hdrs tr).Opponent = []) := by
  have hopp : (rowRecord hdrs tr).Opponent =
      opponent (querySelectorAll tr [["td"]])
        (oppIdx (indexOf hdrs "vRk".toList) (indexOf hdrs "Score".toList)) := rfl
  constructor
  · rintro ⟨hv, hs⟩ td htd
    rw [hopp, indexOf_eq, indexOf_eq, if_pos hv, if_pos hs, oppIdx_present,
      opponent_natIdx, htd]
  · intro h
    rw [hopp, indexOf_eq, indexOf_eq]
    by_cases hv : "vRk".toList ∈ hdrs
    · by_cases hs : "Score".toList ∈ hdrs
      · have hlen := (h.resolve_left (fun hc => hc hv)).resolve_left (fun hc => hc hs)
        rw [if_pos hv, if_pos hs, oppIdx_present, opponent_natIdx,
          List.getElem?_eq_none hlen]
      · rw [if_neg hs, oppIdx_absent _ _ (Or.inr rfl)]
        rfl
    · rw [if_neg hv, oppIdx_absent _ _ (Or.inl rfl)]
      rfl

/-- The row of the example: headers `Date`, `vRk`, `Opponent`, `Score`, and an
opponent cell holding a link `A. Player` followed by ` (3)`. -/
theorem opponent_spec_witness :
    (rowRecord ["Date".toList, "vRk".toList, "Opponent".toList, "Score".toList]
      exampleRowElem).Opponent = "A. Player".toList :=
  ((opponent_spec ["Date".toList, "vRk".toList, "Opponent".toList, "Score".toList]
    exampleRowElem).1 ⟨by decide, by decide⟩ exampleOpponentCell rfl).trans (by decide)

/-- C6: for the located table, the records returned are the records of the body
rows (the `tbody tr` rows with at least one `td`) whose trimmed `Date` cell is
not empty, in the order of the rows; every returned record has a non-empty
`Date`, and the returned list is a sublist of the records of all body rows. -/
theorem extractRows_spec (tables : List Elem) (target : Elem)
    (h : findTarget tables = some target) :
    extractRows tables =
      ((bodyRows target).filter (fun tr =>
        decide (getCell (querySelectorAll tr [["td"]])
          (indexOf (getHeaders target) "Date".toList) ≠ []))).map
        (rowRecord (getHeaders target)) ∧
    (∀ r ∈ extractRows tables, r.Date ≠ []) ∧
    (∀ tr, tr ∈ bodyRows target ↔
      tr ∈ querySelectorAll target [["tbody", "tr"]] ∧ querySelectorAll tr [["td"]] ≠ []) ∧
    List.Sublist (extractRows tables) ((bodyRows target).map (rowRecord (getHeaders target))) := by
  have hex : extractRows tables =
      ((bodyRows target).map (rowRecord (getHeaders target))).filter
        (fun r => decide (r.Date ≠ [])) := by
    unfold extractRows
    rw [h]
  refine ⟨?_, ?_, ?_, ?_⟩
  · rw [hex, List.filter_map]
    rfl
  · intro r hr
    rw [hex, List.mem_filter] at hr
    simpa using hr.2
  · intro tr
    unfold bodyRows
    rw [List.mem_filter]
    simp [List.length_eq_zero]
  · rw [hex]
    exact List.filter_sublist _

/-- The example table: the row with a blank `Date` cell and the row without data
cells are left out, the two match rows are returned in order. -/
theorem extractRows_spec_witness :
    extractRows (documentQuerySelectorAll exampleMatches [["table"]]) =
      [⟨"2024-01-15".toList, [], [], "5".toList, [], [], [], [], "A. Player".toList⟩,
       ⟨"2023-12-30".toList, [], [], "9".toList, [], [], [], [], "C. Player [2]".toList⟩] :=
  (extractRows_spec (documentQuerySelectorAll exampleMatches [["table"]])
    exampleMatchesElem rfl).1.trans (by decide)

/-- Three tables in document order, the first without `Score` among its header
labels and the next two with both labels: the locator returns the second. -/
theorem findTarget_spec_witness :
    findTarget [exampleTableElem, exampleMatchesElem, exampleMatchesElem] =
      some exampleMatchesElem :=
  ((findTarget_spec [exampleTableElem, exampleMatchesElem, exampleMatchesElem]).2.1
    exampleMatchesElem).mpr
    ⟨[exampleTableElem], [exampleMatchesElem], rfl, ⟨by decide, by decide⟩, by decide⟩

end TennisAbstract
